import Mathlib

/-!
Verification development for the snakee data-pipeline engine.

Shallow embedding of the stream, sorting, grouping, joining, selection,
value-type and SQL-query-compiler operations of the repository, together
with theorems settling the specification claims about them.

Python conventions used throughout the embedding:
  - a Python function that can raise is embedded as a function into
    `Except PyError _`;
  - Python `None` used as a value is embedded as `Option.none`;
  - Python dicts that preserve insertion order are embedded as
    association lists.
-/

namespace Snakee

/-- Python exceptions raised by the embedded code, tagged by the Python
exception class they correspond to. -/
inductive PyError where
  /-- Python `IndexError` raised by out-of-range list indexing. -/
  | indexError : PyError
  /-- Python `NotImplementedError` carrying its message
  (the role the spec taxonomy calls UnsupportedOperationError). -/
  | notImplementedError (msg : String) : PyError
  /-- Python `ValueError` carrying its message
  (the role the spec taxonomy calls UnsupportedTypeError). -/
  | valueError (msg : String) : PyError
  deriving DecidableEq, Repr

/-! ## functions/item_functions.py -/

/-- Embedding of `value_by_key(key, default=None)` from
`src/functions/item_functions.py` (lines 26-32), specialised to list/tuple
items (the `isinstance(item, (list, tuple))` branch):
`item[key] if isinstance(key, int) and 0 <= key <= len(item) else None`.
Python `item[key]` with `0 <= key` returns the element when `key < len(item)`
and raises `IndexError` otherwise; the guard in the source uses `<=`, so the
boundary value `key = len(item)` passes the guard and reaches the indexing. -/
def value_by_key {V : Type} (key : Int) (item : List V) : Except PyError (Option V) :=
  if 0 ≤ key ∧ key ≤ (item.length : Int) then
    match item.get? key.toNat with
    | some v => Except.ok (some v)
    | none => Except.error PyError.indexError
  else
    Except.ok none

/-! ## streams/mixin/columnar_mixin.py : map_side_join -/

/-- The `JoinType` enum members used by `ColumnarMixin.map_side_join`
(`src/streams/mixin/columnar_mixin.py`). -/
inductive JoinType where
  | Inner | Left | Right | Outer | Full
  deriving DecidableEq, Repr

/-- Embedding of `ColumnarMixin.map_side_join`
(`src/streams/mixin/columnar_mixin.py`, lines 175-216), at the level the
claim is about: `right_items = list(right.get_items())`; when `right_items`
is non-empty the joined items come from `algo.map_side_join(...)` (embedded
here as the parameter `algo_join`, since only its call site is in the tree);
when the right side is empty, `Left`/`Outer`/`Full` return the left items
unchanged and the remaining join types return an empty list. -/
def map_side_join {I : Type} (algo_join : List I → List I → JoinType → List I)
    (left right : List I) (how : JoinType) : List I :=
  match right with
  | _ :: _ => algo_join left right how
  | [] =>
    match how with
    | JoinType.Left | JoinType.Outer | JoinType.Full => left
    | JoinType.Right | JoinType.Inner => []

/-! ## content/value_type.py : the canonical value types -/

/-- Embedding of the `ValueType` dynamic enum of `src/content/value_type.py`
(lines 24-36): the canonical value-type tags. -/
inductive ValueType where
  | any | json | str | str16 | str64 | str256
  | int | float | isoDate | bool | sequence | dict
  deriving DecidableEq, Repr

/-- The string value of each `ValueType` member (`Any = 'any'`, ...,
`IsoDate = 'date'`, ... in `src/content/value_type.py` lines 25-36). -/
def ValueType.value : ValueType → String
  | any => "any"
  | json => "json"
  | str => "str"
  | str16 => "str16"
  | str64 => "str64"
  | str256 => "str256"
  | int => "int"
  | float => "float"
  | isoDate => "date"
  | bool => "bool"
  | sequence => "sequence"
  | dict => "dict"

/-- Embedding of `ValueType._dict_heuristic_suffix_to_type`
(`src/content/value_type.py`, lines 183-207) in dict insertion order.
The final `None: ValueType.Str` entry of the Python dict is the default
type returned when no listed token occurs in the field name; since `None`
never equals a string name part, it is kept out of the searched list and
embedded as the fallback of `detect_by_name` instead. -/
def heuristicSuffixToType : List (String × ValueType) :=
  [("hist", ValueType.dict),
   ("names", ValueType.sequence),
   ("ids", ValueType.sequence),
   ("id", ValueType.int),
   ("hits", ValueType.int),
   ("count", ValueType.int),
   ("sum", ValueType.float),
   ("avg", ValueType.float),
   ("mean", ValueType.float),
   ("share", ValueType.float),
   ("norm", ValueType.float),
   ("weight", ValueType.float),
   ("value", ValueType.float),
   ("score", ValueType.float),
   ("rate", ValueType.float),
   ("coef", ValueType.float),
   ("abs", ValueType.float),
   ("rel", ValueType.float),
   ("pos", ValueType.int),
   ("no", ValueType.int),
   ("is", ValueType.bool),
   ("has", ValueType.bool)]

/-- Python `str.split(sep)` for a one-character separator, over the
character list of the string: splits at every separator occurrence,
keeping empty parts (so `"a__b"` splits into `a`, ``, `b`). -/
def pySplitChar (sep : Char) : List Char → List (List Char)
  | [] => [[]]
  | c :: cs =>
    match pySplitChar sep cs with
    | [] => if c = sep then [[], []] else [[c]]
    | p :: ps => if c = sep then [] :: p :: ps else (c :: p) :: ps

/-- Python `field_name.split(UNDER)` (`UNDER = '_'`) as a list of strings. -/
def splitUnder (s : String) : List String :=
  (pySplitChar (Char.ofNat 95) s.toList).map List.asString

/-- The loop body of `ValueType.detect_by_name`
(`src/content/value_type.py`, lines 71-81): walk the heuristic table in
order and return the type of the first entry whose token occurs among the
underscore-separated name parts; `break` is embedded by returning. -/
def detectByNameLoop (name_parts : List String) : List (String × ValueType) → ValueType
  | [] => ValueType.str
  | (suffix, t) :: rest =>
    if suffix ∈ name_parts then t else detectByNameLoop name_parts rest

/-- Embedding of `ValueType.detect_by_name`
(`src/content/value_type.py`, lines 71-81): split the field name on `_`,
then scan `_dict_heuristic_suffix_to_type` in insertion order for a key
contained in the name parts, defaulting to `Str`. -/
def detect_by_name (field_name : String) : ValueType :=
  detectByNameLoop (splitUnder field_name) heuristicSuffixToType

/-- The claim's reading of the heuristic, stated from the spec's words
(a second definition for comparison with `detect_by_name`, not taken from
the source): the type is selected by the field name's suffix token alone,
with names whose suffix is not in the table getting the default `Str`. -/
def suffix_type_by_name (field_name : String) : ValueType :=
  match (splitUnder field_name).getLast? with
  | none => ValueType.str
  | some suffix =>
    match heuristicSuffixToType.find? (fun p => p.1 = suffix) with
    | some p => p.2
    | none => ValueType.str

/-! ## content/value_type.py : get_canonic_type -/

/-- The bare Python classes that occur as `py=` entries of
`ValueType._dict_dialect_types` (`src/content/value_type.py`, lines 169-182). -/
inductive PyType where
  | str | int | float | bool | dict | tuple
  deriving DecidableEq, Repr

/-- The `__name__` of each embedded Python class. -/
def PyType.typeName : PyType → String
  | str => "str"
  | int => "int"
  | float => "float"
  | bool => "bool"
  | dict => "dict"
  | tuple => "tuple"

/-- A type spec passed to `ValueType.get_canonic_type`: an
already-canonical `ValueType` member, a string, a bare Python class, or
`None`. -/
inductive FieldTypeSpec where
  | vt (t : ValueType)
  | strSpec (s : String)
  | py (t : PyType)
  | noneSpec
  deriving DecidableEq, Repr

/-- A comparable entry of one `_dict_dialect_types` row: a dialect type
name string (the `pg=`/`ch=` values) or a bare Python class (the `py=`
value).  The `str_to_py`/`py_to_str`/`py_to_ch` values of the source dict
are converter functions; a string, class or `None` spec never compares
equal to a function, so those entries can never match the scanned
`field_type` and are not represented. -/
inductive DialectEntry where
  | s (v : String)
  | p (t : PyType)
  deriving DecidableEq, Repr

/-- Embedding of `ValueType._dict_dialect_types`
(`src/content/value_type.py`, lines 169-182), with each row's comparable
entries in dict insertion order (`py`, `pg`, `ch`), and the rows already
arranged in the order produced by
`sorted(field_types_by_dialect.items(), key=lambda i: i[0], reverse=True)`
(line 112).  Modelled from the spec: the `DynamicEnum` comparison used by
that `sorted` call is not in the source tree; enum members are ordered by
their string values, so the descending row order is str64, str256, str16,
str, sequence, json, int, float, dict, date, bool, any. -/
def dialectTypesSorted : List (ValueType × List DialectEntry) :=
  [(ValueType.str64, [DialectEntry.p PyType.str, DialectEntry.s "varchar(64)", DialectEntry.s "FixedString(64)"]),
   (ValueType.str256, [DialectEntry.p PyType.str, DialectEntry.s "varchar(256)", DialectEntry.s "FixedString(256)"]),
   (ValueType.str16, [DialectEntry.p PyType.str, DialectEntry.s "varchar(16)", DialectEntry.s "FixedString(16)"]),
   (ValueType.str, [DialectEntry.p PyType.str, DialectEntry.s "text", DialectEntry.s "String"]),
   (ValueType.sequence, [DialectEntry.p PyType.tuple, DialectEntry.s "text"]),
   (ValueType.json, [DialectEntry.p PyType.dict, DialectEntry.s "text", DialectEntry.s "String"]),
   (ValueType.int, [DialectEntry.p PyType.int, DialectEntry.s "int", DialectEntry.s "Int32"]),
   (ValueType.float, [DialectEntry.p PyType.float, DialectEntry.s "numeric", DialectEntry.s "Float32"]),
   (ValueType.dict, [DialectEntry.p PyType.dict, DialectEntry.s "text"]),
   (ValueType.isoDate, [DialectEntry.p PyType.str, DialectEntry.s "date", DialectEntry.s "Date"]),
   (ValueType.bool, [DialectEntry.p PyType.bool, DialectEntry.s "bool", DialectEntry.s "UInt8"]),
   (ValueType.any, [DialectEntry.p PyType.str, DialectEntry.s "text", DialectEntry.s "String"])]

/-- Whether `field_type == type_name` holds for one dialect entry: string
specs compare with dialect name strings, bare classes with the `py=`
classes; `None` equals neither. -/
def specMatchesEntry : FieldTypeSpec → DialectEntry → Bool
  | FieldTypeSpec.strSpec s, DialectEntry.s v => s = v
  | FieldTypeSpec.py t, DialectEntry.p t2 => t = t2
  | _, _ => false

/-- All `ValueType` members, in declaration order. -/
def ValueType.all : List ValueType :=
  [any, json, str, str16, str64, str256, int, float, isoDate, bool, sequence, dict]

/-- Modelled from the spec: the `ValueType(value)` enum constructor of the
`DynamicEnum` base class (not in the source tree) resolves a member by its
string value, raising `ValueError` when no member has that value.  This
also embeds the `field_type in ValueType.__dict__.values()` membership test
of line 104, since the dynamic enum compares members with strings by value. -/
def ValueType.ofValueString? (s : String) : Option ValueType :=
  ValueType.all.find? (fun t => t.value = s)

/-- Python `str.lower()` over the character list. -/
def pyLower (s : String) : String :=
  (s.toList.map Char.toLower).asString

/-- Python `str(field_type)`: the string itself for strings, the
`<class 'name'>` repr for bare classes, `None` for `None`. -/
def FieldTypeSpec.pyStr : FieldTypeSpec → String
  | strSpec s => s
  | py t => "<class " ++ (Char.ofNat 39).toString ++ t.typeName ++ (Char.ofNat 39).toString ++ ">"
  | noneSpec => "None"
  | vt t => t.value

/-- Python `str(x).split(DOT)[-1]` (`DOT = '.'`). -/
def lastDotPart (s : String) : String :=
  ((pySplitChar (Char.ofNat 46) s.toList).getLastD []).asString

/-- The dialect-table scan of `ValueType.get_canonic_type`
(`src/content/value_type.py`, lines 111-115): walk the sorted rows and
return the first canonical type one of whose dialect entries equals the
spec (the source returns from inside the inner loop; every entry of a row
yields that row's canonical type, so the first matching row decides). -/
def dialectScan (spec : FieldTypeSpec) : Option ValueType :=
  dialectTypesSorted.findSome?
    (fun row => if row.2.any (specMatchesEntry spec) then some row.1 else none)

/-- The fall-through tail of `ValueType.get_canonic_type`
(`src/content/value_type.py`, lines 116-124):
`str_field_type = str(field_type).split(DOT)[-1].lower()`, then
`ValueType(str_field_type)`; on `ValueError`, return the default tag when
`ignore_missing` else raise `Unsupported field type: ...`. -/
def canonicLastResort (spec : FieldTypeSpec) (ignore_missing : Bool) : Except PyError ValueType :=
  match ValueType.ofValueString? (pyLower (lastDotPart spec.pyStr)) with
  | some t => Except.ok t
  | none =>
    if ignore_missing then Except.ok ValueType.any
    else Except.error (PyError.valueError ("Unsupported field type: " ++ spec.pyStr))

/-- Embedding of `ValueType.get_canonic_type`
(`src/content/value_type.py`, lines 98-124): `None` is first replaced by
the default `'any'` when `ignore_missing`; a `ValueType` member is
returned as is; a string equal to a member's value resolves by value;
`'integer'` resolves to `Int`; then the dialect-type table is scanned;
finally the lowered last dot-component is tried, with the
`ignore_missing` default or a `ValueError` on failure. -/
def get_canonic_type (field_type : FieldTypeSpec) (ignore_missing : Bool) :
    Except PyError ValueType :=
  let ft := if ignore_missing ∧ field_type = FieldTypeSpec.noneSpec
            then FieldTypeSpec.strSpec "any" else field_type
  match ft with
  | FieldTypeSpec.vt t => Except.ok t
  | FieldTypeSpec.strSpec s =>
    match ValueType.ofValueString? s with
    | some t => Except.ok t
    | none =>
      if s = "integer" then Except.ok ValueType.int
      else
        match dialectScan (FieldTypeSpec.strSpec s) with
        | some t => Except.ok t
        | none => canonicLastResort (FieldTypeSpec.strSpec s) ignore_missing
  | FieldTypeSpec.py t =>
    match dialectScan (FieldTypeSpec.py t) with
    | some t2 => Except.ok t2
    | none => canonicLastResort (FieldTypeSpec.py t) ignore_missing
  | FieldTypeSpec.noneSpec =>
    match dialectScan FieldTypeSpec.noneSpec with
    | some t2 => Except.ok t2
    | none => canonicLastResort FieldTypeSpec.noneSpec ignore_missing

/-- The claim's enumeration of resolvable specs, stated from the spec's
words (for comparison with what `get_canonic_type` accepts): an
already-canonical tag, a storage-dialect type name, or a bare type. -/
def canonicValueStrings : List String :=
  ["any", "json", "str", "str16", "str64", "str256",
   "int", "float", "date", "bool", "sequence", "dict"]

/-- The storage-dialect type names occurring in the dialect table. -/
def dialectNameStrings : List String :=
  ["text", "String", "varchar(16)", "FixedString(16)", "varchar(64)", "FixedString(64)",
   "varchar(256)", "FixedString(256)", "int", "Int32", "numeric", "Float32",
   "date", "Date", "bool", "UInt8"]

/-- A spec of one of the forms the claim calls resolvable. -/
def Resolvable : FieldTypeSpec → Prop
  | FieldTypeSpec.vt _ => True
  | FieldTypeSpec.strSpec s => s ∈ canonicValueStrings ∨ s ∈ dialectNameStrings
  | FieldTypeSpec.py _ => True
  | FieldTypeSpec.noneSpec => False

/-! ## utils/selection.py : record_from_record -/

/-- A Python dict with string keys, as an insertion-ordered association
list; a stored value `none` embeds a stored Python `None`. -/
abbrev PyDict (V : Type) : Type := List (String × Option V)

/-- The keys of a dict, in insertion order. -/
def dictKeys {V : Type} (d : PyDict V) : List String := d.map Prod.fst

/-- Python `d.get(k)` with default `None`: a missing key and a stored
`None` both give `None`. -/
def dictGet {V : Type} (d : PyDict V) (k : String) : Option V :=
  match d.find? (fun p => p.1 = k) with
  | some p => p.2
  | none => none

/-- Python `d[k] = v`: update in place when the key exists (keeping its
position), append otherwise. -/
def dictSet {V : Type} (d : PyDict V) (k : String) (v : Option V) : PyDict V :=
  if k ∈ dictKeys d then d.map (fun p => if p.1 = k then (k, v) else p)
  else d ++ [(k, v)]

/-- One field description handled by `record_from_record`
(`src/utils/selection.py`, lines 223-243): the `STAR` marker, an
expression `(f_out, *fs_in, function)` (whose function application over
the looked-up input values embeds `value_from_record`, lines 111-123), a
two-element `(f_out, f_in)` copy, or a bare field name. -/
inductive Desc (V : Type) where
  | star
  | expr (target : String) (inputs : List String) (fn : List (Option V) → Option V)
  | rename (target source : String)
  | field (name : String)

/-- The state of one `record_from_record` call: the caller's record
object `rec_in`, the working copy `record` made on entry, and the
accumulated `fields_out` list. -/
structure SelState (V : Type) where
  rec_in : PyDict V
  record : PyDict V
  fields_out : List String

/-- One loop iteration of `record_from_record`
(`src/utils/selection.py`, lines 226-242): `STAR` extends `fields_out`
with `rec_in`'s keys; a description list computes a value from the working
`record` and assigns `record[f_out]`; a bare name defaults a missing
`record[desc]` to `None`; all writes target `record`. -/
def selStep {V : Type} (st : SelState V) : Desc V → SelState V
  | Desc.star =>
    { st with fields_out := st.fields_out ++ dictKeys st.rec_in }
  | Desc.expr t ins fn =>
    { st with record := dictSet st.record t (fn (ins.map (dictGet st.record))),
              fields_out := st.fields_out ++ [t] }
  | Desc.rename t s =>
    { st with record := dictSet st.record t (dictGet st.record s),
              fields_out := st.fields_out ++ [t] }
  | Desc.field n =>
    { st with record := if n ∈ dictKeys st.record then st.record else dictSet st.record n none,
              fields_out := st.fields_out ++ [n] }

/-- Embedding of `record_from_record` (`src/utils/selection.py`, lines
223-243) up to the final output comprehension: copy the incoming record
(`record = rec_in.copy()`, line 224), then run every description. -/
def record_from_record {V : Type} (rec_in : PyDict V) (descs : List (Desc V)) : SelState V :=
  descs.foldl selStep ⟨rec_in, rec_in, []⟩

/-- The final `{f: record[f] for f in fields_out}` comprehension of
`record_from_record` (line 243). -/
def record_from_record_result {V : Type} (rec_in : PyDict V) (descs : List (Desc V)) : PyDict V :=
  let st := record_from_record rec_in descs
  st.fields_out.foldl (fun d f => dictSet d f (dictGet st.record f)) []

/-! ## streams/regular/any_stream.py : sorted grouping -/

/-- Embedding of the generator body of `AnyStream._get_groups`
(`src/streams/regular/any_stream.py`, lines 158-171), in its
`as_pairs=True` form: accumulate a run while the key is unchanged, flush
`(prev_k, accumulated)` when the key changes and something was
accumulated, and flush unconditionally at end of input.  `prev_k` starts
as Python `None`, embedded as `Option.none`. -/
def getGroupsAux {α β : Type} [DecidableEq β] (key : α → β)
    (prev_k : Option β) (accumulated : List α) : List α → List (Option β × List α)
  | [] => [(prev_k, accumulated)]
  | r :: rest =>
    let k := key r
    if some k ≠ prev_k ∧ accumulated.isEmpty = false then
      (prev_k, accumulated) :: getGroupsAux key (some k) [r] rest
    else
      getGroupsAux key (some k) (accumulated ++ [r]) rest

/-- `AnyStream._get_groups(key_function, as_pairs=True)` over a
materialized item sequence, as consumed by `sorted_group_by`
(`src/streams/regular/any_stream.py`, lines 173-210). -/
def sorted_group_by_pairs {α β : Type} [DecidableEq β] (key : α → β)
    (items : List α) : List (Option β × List α) :=
  getGroupsAux key none [] items

/-! ## streams/wrappers/sql_stream.py : the query compiler -/

/-- Python `str.upper()` over the character list. -/
def pyUpper (s : String) : String :=
  (s.toList.map Char.toUpper).asString

/-- The `SqlSection` enum of `src/streams/wrappers/sql_stream.py`
(lines 72-79). -/
inductive SqlSection where
  | selectSec | fromSec | joinSec | whereSec | groupBySec | orderBySec | limitSec
  deriving DecidableEq, Repr

/-- The `.value` of each `SqlSection` member. -/
def SqlSection.value : SqlSection → String
  | selectSec => "SELECT"
  | fromSec => "FROM"
  | joinSec => "JOIN"
  | whereSec => "WHERE"
  | groupBySec => "GROUP BY"
  | orderBySec => "ORDER BY"
  | limitSec => "LIMIT"

/-- A literal value in a filter tuple: a string or an int. -/
inductive SqlVal where
  | s (v : String)
  | i (n : Int)
  deriving DecidableEq, Repr

/-- An expression stored in a SELECT or WHERE section: a bare field name,
or a two-element tuple `(target_field, value)` (`desc[0]` and `desc[1]` of
the source's `Sequence` branches). -/
inductive SqlExpr where
  | field (name : String)
  | pair (target : String) (v : SqlVal)
  deriving DecidableEq, Repr

mutual

/-- A `SqlStream` of `src/streams/wrappers/sql_stream.py`: its generated
or given name, and its `data` dict mapping each `SqlSection` to its
expression list, with the FROM section held by the stream's `source`
(`get_expressions_for`, lines 141-147).  JOIN entries are the
`(table_or_query, key, how)` tuples of `join()` (line 457). -/
inductive SqlQuery where
  | mk (name : String) (selectS : List SqlExpr) (fromS : SqlFrom)
       (joinS : List SqlJoin) (whereS : List SqlExpr)
       (groupByS : List String) (orderByS : List String) (limitS : List Int) : SqlQuery

/-- The `source` of a `SqlStream`: a Table connector (with its
`get_path()` result and its name) or another `SqlStream`. -/
inductive SqlFrom where
  | table (path : String) (name : String) : SqlFrom
  | subquery (q : SqlQuery) : SqlFrom

/-- One JOIN-section tuple `(table_or_query, key, how)`. -/
inductive SqlJoin where
  | mk (src : SqlFrom) (key : String) (how : String) : SqlJoin

end

def SqlQuery.qname : SqlQuery → String
  | SqlQuery.mk n _ _ _ _ _ _ _ => n

def SqlQuery.selectS : SqlQuery → List SqlExpr
  | SqlQuery.mk _ s _ _ _ _ _ _ => s

def SqlQuery.fromS : SqlQuery → SqlFrom
  | SqlQuery.mk _ _ f _ _ _ _ _ => f

def SqlQuery.joinS : SqlQuery → List SqlJoin
  | SqlQuery.mk _ _ _ j _ _ _ _ => j

def SqlQuery.whereS : SqlQuery → List SqlExpr
  | SqlQuery.mk _ _ _ _ w _ _ _ => w

def SqlQuery.groupByS : SqlQuery → List String
  | SqlQuery.mk _ _ _ _ _ g _ _ => g

def SqlQuery.orderByS : SqlQuery → List String
  | SqlQuery.mk _ _ _ _ _ _ o _ => o

def SqlQuery.limitS : SqlQuery → List Int
  | SqlQuery.mk _ _ _ _ _ _ _ l => l

/-- `SqlStream.get_query_name()` (line 354-355): the last `.`/`:` part of
the stream name; embedded names contain no separators. -/
def SqlQuery.queryName (q : SqlQuery) : String := q.qname

/-- `SqlStream._get_generated_name()` (lines 357-359) produces
`subquery` plus a random suffix; embedded as the fixed stem, since the
suffix only feeds generated aliases. -/
def generatedName : String := "subquery"

/-- `SQL_INDENT`, imported by the source from `base.constants.chars`.
Modelled from the spec: the fixed indent unit of query clause lines (the
constant itself is not in the source tree). -/
def SQL_INDENT : String := "    "

/-- `ITEMS_DELIMITER`, imported from `base.constants.chars`; the comma
join of multi-expression clauses (`DEFAULT_ITEMS_DELIMITER` in the tree's
`chars.py`). -/
def ITEMS_DELIMITER : String := ", "

/-- The Python single-quote character, as a string. -/
def singleQuote : String := (Char.ofNat 39).toString

/-- Render a `SqlVal` the way Python string interpolation does. -/
def SqlVal.render : SqlVal → String
  | SqlVal.s v => v
  | SqlVal.i n => toString n

/-- `SqlStream.get_select_lines` (lines 169-222) for the embedded
expression forms: an empty SELECT section yields `ALL` (`*`); a bare field
name yields itself; a two-element tuple yields
`{source_field} AS {target_field}`. -/
def getSelectLines (selectS : List SqlExpr) : List String :=
  match selectS with
  | [] => ["*"]
  | l =>
    l.map fun e =>
      match e with
      | SqlExpr.field n => n
      | SqlExpr.pair t v => v.render ++ " AS " ++ t

/-- `SqlStream.get_where_lines` (lines 224-253): a bare field name yields
the `IS_DEFINED` template `{field} <> 0 and {field} NOT NULL` (line 61); a
`(field, value)` tuple yields a quoted equality for string values and a
plain one otherwise. -/
def getWhereLines (whereS : List SqlExpr) : List String :=
  whereS.map fun e =>
    match e with
    | SqlExpr.field n => n ++ " <> 0 and " ++ n ++ " NOT NULL"
    | SqlExpr.pair t (SqlVal.s v) => t ++ " = " ++ singleQuote ++ v ++ singleQuote
    | SqlExpr.pair t (SqlVal.i n) => t ++ " = " ++ toString n

/-- The per-line assembly of `SqlStream._format_section_lines`
(lines 377-379): indent every line and append the delimiter to every line
but the last. -/
def delimLines (indent delimiter : String) : List String → List String
  | [] => []
  | [l] => [indent ++ l]
  | l :: rest => (indent ++ l ++ delimiter) :: delimLines indent delimiter rest

/-- `SqlStream._format_section_lines` (lines 361-379): an empty section
renders nothing; JOIN renders with no header and no indent; other sections
render their name as a header line; WHERE is AND-joined, FROM/JOIN
unseparated, all other sections comma-joined. -/
def formatSectionLines (sec : SqlSection) (lines : List String) : List String :=
  match lines with
  | [] => []
  | ls =>
    let indent := if sec = SqlSection.joinSec then "" else SQL_INDENT
    let header := if sec = SqlSection.joinSec then [] else [sec.value]
    let delimiter :=
      if sec = SqlSection.whereSec then "\n" ++ indent ++ "AND "
      else if sec = SqlSection.fromSec ∨ sec = SqlSection.joinSec then ""
      else ITEMS_DELIMITER
    header ++ delimLines indent delimiter ls

/-- The name under which a source appears on the left of an ON clause
(`self.get_source().get_query_name()`, line 290). -/
def SqlFrom.sourceName : SqlFrom → String
  | SqlFrom.table _ name => name
  | SqlFrom.subquery q => q.queryName

set_option linter.unusedVariables false

/-- `SqlStream.get_query_lines` (lines 341-348) together with the
section generators it dispatches to through `get_section_lines`
(lines 329-332).  `get_from_lines` (lines 255-275) and `get_join_lines`
(lines 277-310), which recurse into sub-queries, are inlined here as the
`fromLines`/`joinLines` bindings.  The source loop
`for section in SECTIONS_ORDER: ... query_lines = list(...)` REASSIGNS
`query_lines` on every iteration instead of extending it, so only the
final (LIMIT) iteration's value survives; the shadowing `let` chain below
reproduces that reassignment.  `query_lines += ';'` extends the list with
the characters of `';'`, i.e. appends the single line `";"`. -/
def getQueryLines : SqlQuery → Bool → List String
  | SqlQuery.mk _name selectS fromS joinS whereS groupByS orderByS limitS, finish =>
    let fromLines : List String :=
      match fromS with
      | SqlFrom.table path _ => [path]
      | SqlFrom.subquery q =>
        ["("] ++ getQueryLines q false ++ [") AS " ++ q.queryName]
    let joinLines : List String :=
      match joinS with
      | [] => []
      | SqlJoin.mk src key how :: _ =>
        let title := pyUpper how ++ " JOIN"
        let leftName := fromS.sourceName
        match src with
        | SqlFrom.table path _ =>
          let rightName := generatedName ++ "_right"
          [title, SQL_INDENT ++ path,
           "ON " ++ leftName ++ "." ++ key ++ " = " ++ rightName ++ "." ++ key]
        | SqlFrom.subquery q =>
          let rightName := q.queryName
          ([title ++ " ("] ++ (getQueryLines q false).map (fun s => SQL_INDENT ++ s)
            ++ [") AS " ++ rightName,
                "ON " ++ leftName ++ "." ++ key ++ " = " ++ rightName ++ "." ++ key])
    let queryLines : List String := []
    let queryLines := formatSectionLines SqlSection.selectSec (getSelectLines selectS)
    let queryLines := formatSectionLines SqlSection.fromSec fromLines
    let queryLines := formatSectionLines SqlSection.joinSec joinLines
    let queryLines := formatSectionLines SqlSection.whereSec (getWhereLines whereS)
    let queryLines := formatSectionLines SqlSection.groupBySec groupByS
    let queryLines := formatSectionLines SqlSection.orderBySec orderByS
    let queryLines := formatSectionLines SqlSection.limitSec (limitS.map toString)
    if finish then queryLines ++ [";"] else queryLines

set_option linter.unusedVariables true

/-- `SqlStream.get_query` (lines 338-339):
`'\n'.join(list(self.get_query_lines(finish=finish)))`. -/
def get_query (q : SqlQuery) (finish : Bool) : String :=
  String.intercalate "\n" (getQueryLines q finish)

/-- `SqlStream.has_any_section` (lines 381-386): some section other than
FROM is populated. -/
def SqlQuery.hasAnySection (q : SqlQuery) : Bool :=
  !q.selectS.isEmpty || !q.joinS.isEmpty || !q.whereS.isEmpty
    || !q.groupByS.isEmpty || !q.orderByS.isEmpty || !q.limitS.isEmpty

/-- Replace the SELECT section (the `copy()` + `add_expression_for`
appends of the builder operations act on the copy's section list). -/
def SqlQuery.setSelect : SqlQuery → List SqlExpr → SqlQuery
  | SqlQuery.mk n _ f j w g o l, v => SqlQuery.mk n v f j w g o l

/-- Replace the WHERE section. -/
def SqlQuery.setWhere : SqlQuery → List SqlExpr → SqlQuery
  | SqlQuery.mk n s f j w g o l, v => SqlQuery.mk n s f j v g o l

/-- `SqlStream.new` (lines 388-391): a fresh `SqlStream` with empty
section lists (fresh `data=dict()`), a generated name, and the current
stream as its `source`. -/
def SqlStream.new (q : SqlQuery) : SqlQuery :=
  SqlQuery.mk generatedName [] (SqlFrom.subquery q) [] [] [] [] []

/-- `SqlStream.select` (lines 398-413): when the SELECT section is
already populated, return `self.new().select(...)` — since the fresh
query's SELECT is empty, that recursive call lands in the second branch
and appends the expressions into the fresh query's SELECT; otherwise
append the expressions into a copy's SELECT section. -/
def SqlStream.select (q : SqlQuery) (exprs : List SqlExpr) : SqlQuery :=
  if q.selectS.isEmpty then q.setSelect (q.selectS ++ exprs)
  else (SqlStream.new q).setSelect exprs

/-- `SqlStream.filter` (lines 415-424): when any section besides FROM is
populated, return `self.new().filter(...)` — the fresh query has no
populated section, so the recursive call appends into the fresh query's
WHERE; otherwise append the filter expressions into a copy's WHERE. -/
def SqlStream.filter (q : SqlQuery) (exprs : List SqlExpr) : SqlQuery :=
  if q.hasAnySection then (SqlStream.new q).setWhere exprs
  else q.setWhere (q.whereS ++ exprs)

/-- `MSG_NOT_IMPL` (`src/streams/wrappers/sql_stream.py`, line 62),
formatted for a method name. -/
def MSG_NOT_IMPL (method : String) : String :=
  method ++ "() operation is not defined for SqlStream, try to use .to_record_stream()."
    ++ method ++ "() instead"

/-- `SqlStream.map` (lines 478-479): unconditionally raises
`NotImplementedError(MSG_NOT_IMPL.format(method='map'))` without touching
the database connector; the mapping function is never invoked. -/
def SqlStream.map {F : Type} (q : SqlQuery) (function : F) : Except PyError SqlQuery :=
  Except.error (PyError.notImplementedError (MSG_NOT_IMPL "map"))

/-! ## The Sorter (spec §4.3)

`memory_sort` and `disk_sort` are called from the tree
(`RecordStream.sort`, `src/streams/regular/record_stream.py` lines
164-171; `KeyValueStream.disk_sort_by_key`,
`src/streams/pairs/key_value_stream.py` lines 89-95) but implemented
outside it, so they are modelled from the spec here. -/

/-- Modelled from the spec: one insertion step of the stable in-memory
sort — place `a` before the first element whose key is not smaller, so an
element coming earlier in the input precedes every equal-key element
already sorted behind it. -/
def orderedInsertKey {α β : Type} [LinearOrder β] (key : α → β) (a : α) :
    List α → List α
  | [] => [a]
  | b :: l => if key a ≤ key b then a :: b :: l else b :: orderedInsertKey key a l

/-- Modelled from the spec (§4.3): `memory_sort(key)` — a standard stable
sort of a materialized sequence by the key function, as stable insertion
sort. -/
def memory_sort {α β : Type} [LinearOrder β] (key : α → β) : List α → List α
  | [] => []
  | a :: l => orderedInsertKey key a (memory_sort key l)

/-- Stable binary merge by key, preferring the left (earlier-chunk) head
on equal keys.  Used only to state and prove properties of the k-way
merge; the algorithm itself is `kmerge`. -/
def merge2 {α β : Type} [LinearOrder β] (key : α → β) : List α → List α → List α
  | [], r => r
  | x :: xs, [] => x :: xs
  | x :: xs, y :: ys =>
    if key y < key x then y :: merge2 key (x :: xs) ys
    else x :: merge2 key xs (y :: ys)
  termination_by l r => l.length + r.length

/-- Modelled from the spec (§4.3): select, among all open chunk cursors,
the one whose current head has the smallest key, breaking ties by source
order (the earliest cursor wins); return that head together with the
cursors after advancing the chosen one.  An exhausted (empty) cursor is
closed and skipped.  `none` means every cursor is exhausted. -/
def pickMinHead {α β : Type} [LinearOrder β] (key : α → β) :
    List (List α) → Option (α × List (List α))
  | [] => none
  | [] :: ls => pickMinHead key ls
  | (a :: rest) :: ls =>
    match pickMinHead key ls with
    | none => some (a, rest :: ls)
    | some (b, ls2) =>
      if key a ≤ key b then some (a, rest :: ls)
      else some (b, (a :: rest) :: ls2)

/-- The total number of items left across all chunk cursors. -/
def sumLen {α : Type} (ls : List (List α)) : Nat := (ls.map List.length).sum

/-- The k-way merge loop with an explicit fuel measure (each emission
consumes one unit; `kmerge` supplies fuel equal to the total item count,
which the loop never exceeds). -/
def kmergeFuel {α β : Type} [LinearOrder β] (key : α → β) :
    Nat → List (List α) → List α
  | 0, _ => []
  | fuel + 1, ls =>
    match pickMinHead key ls with
    | none => []
    | some (a, ls2) => a :: kmergeFuel key fuel ls2

/-- Modelled from the spec (§4.3): the k-way merge — repeatedly emit the
smallest current head among all open chunk cursors (ties broken by source
order) and advance that cursor, until every cursor is exhausted. -/
def kmerge {α β : Type} [LinearOrder β] (key : α → β) (ls : List (List α)) : List α :=
  kmergeFuel key (sumLen ls) ls

/-- The chunk-partition loop with an explicit fuel measure (each chunk
consumes one unit; `chunks` supplies fuel equal to the input length,
which suffices for every `step ≥ 1`). -/
def chunksFuel {α : Type} (step : Nat) : Nat → List α → List (List α)
  | _, [] => []
  | 0, _ :: _ => []
  | fuel + 1, x :: xs => (x :: xs).take step :: chunksFuel step fuel ((x :: xs).drop step)

/-- Modelled from the spec (§4.3): partition the input into consecutive
chunks of at most `step` items. -/
def chunks {α : Type} (step : Nat) (xs : List α) : List (List α) :=
  chunksFuel step xs.length xs

/-- Modelled from the spec (§4.3): `disk_sort(key, step)` — external
merge sort: partition the input into chunks of at most `step` items,
stably sort each chunk with `memory_sort`, then k-way merge the sorted
chunks. -/
def disk_sort {α β : Type} [LinearOrder β] (key : α → β) (step : Nat)
    (xs : List α) : List α :=
  kmerge key ((chunks step xs).map (memory_sort key))

/-- Embedding of `RecordStream.sort` (`src/streams/regular/record_stream.py`,
lines 164-171), with the `can_be_in_memory(step)` count-estimate test
embedded as the boolean `in_memory`: the once-per-call choice between the
in-memory path and the disk path. -/
def stream_sort {α β : Type} [LinearOrder β] (key : α → β) (in_memory : Bool)
    (step : Nat) (xs : List α) : List α :=
  if in_memory then memory_sort key xs else disk_sort key step xs

/-- The table `t` of spec Scenario 4, as the source of a fresh
`SqlStream` with no populated section. -/
def scenarioTable : SqlQuery :=
  SqlQuery.mk "t" [] (SqlFrom.table "t" "t") [] [] [] [] []

/-- Scenario 4 after `.select(id, name)`. -/
def scenarioSelect : SqlQuery :=
  SqlStream.select scenarioTable [SqlExpr.field "id", SqlExpr.field "name"]

/-- Scenario 4 after `.select(id, name).filter(id=1)`. -/
def scenarioQuery : SqlQuery :=
  SqlStream.filter scenarioSelect [SqlExpr.pair "id" (SqlVal.i 1)]

/-! ## Theorems -/

/-- `detectByNameLoop` returns the type of the first table entry whose
token occurs among the name parts, defaulting to `Str`. -/
theorem detectByNameLoop_eq_find (name_parts : List String) :
    ∀ l : List (String × ValueType),
      detectByNameLoop name_parts l
        = ((l.find? fun p => decide (p.1 ∈ name_parts)).map Prod.snd).getD ValueType.str
  | [] => rfl
  | (suffix, t) :: rest => by
    by_cases h : suffix ∈ name_parts
    · simp [detectByNameLoop, List.find?, h]
    · simp only [detectByNameLoop, if_neg h, List.find?, decide_eq_true_eq]
      simp only [h, decide_False]
      exact detectByNameLoop_eq_find name_parts rest

/-- C7 counterexample: the claim predicts the suffix token decides, so
`id_value` (suffix `value`) would infer `Float`; the code scans the whole
token list in table order, finds `id` first, and infers `Int`. -/
theorem detect_by_name_id_value_counterexample :
    detect_by_name "id_value" = ValueType.int
      ∧ suffix_type_by_name "id_value" = ValueType.float
      ∧ ValueType.int ≠ ValueType.float := by
  refine ⟨rfl, rfl, by decide⟩

/-- C7 (amended): with no explicit type, the inferred canonical type is
that of the first entry of the fixed table (in its insertion order) whose
token occurs among the field name's underscore-separated tokens — not
only as the suffix — and names none of whose tokens is in the table get
the default `Str`. -/
theorem detect_by_name_first_token_match (s : String) :
    detect_by_name s
      = ((heuristicSuffixToType.find? fun p => decide (p.1 ∈ splitUnder s)).map
          Prod.snd).getD ValueType.str
    ∧ ((∀ p ∈ heuristicSuffixToType, p.1 ∉ splitUnder s) →
        detect_by_name s = ValueType.str) := by
  constructor
  · exact detectByNameLoop_eq_find (splitUnder s) heuristicSuffixToType
  · intro h
    rw [detect_by_name, detectByNameLoop_eq_find (splitUnder s) heuristicSuffixToType]
    have : heuristicSuffixToType.find? (fun p => decide (p.1 ∈ splitUnder s)) = none := by
      rw [List.find?_eq_none]
      intro p hp
      simp [h p hp]
    simp [this]

/-- Witness for the amended C7 theorem at the concrete name `username`. -/
theorem detect_by_name_first_token_match_witness :
    detect_by_name "username" = ValueType.str :=
  (detect_by_name_first_token_match "username").2 (by decide)

/-- C10: `value_by_key(key)` over a list item is not total — the index
guard uses `key <= len(item)`, so the boundary key equal to the length
passes the guard and the indexing raises `IndexError`; in-range keys
return the element and other out-of-range keys return `None`. -/
theorem value_by_key_boundary_raises :
    value_by_key (V := Nat) 2 [10, 20] = Except.error PyError.indexError
      ∧ value_by_key (V := Nat) 1 [10, 20] = Except.ok (some 20)
      ∧ value_by_key (V := Nat) 3 [10, 20] = Except.ok none
      ∧ value_by_key (V := Nat) (-1) [10, 20] = Except.ok none :=
  ⟨rfl, rfl, rfl, rfl⟩

/-- C4: `map_side_join` with an empty right stream returns the left items
unchanged for `Left`/`Outer`/`Full` and an empty sequence for
`Right`/`Inner`, whatever the merge algorithm would do on non-empty
input. -/
theorem map_side_join_empty_right {I : Type}
    (algo_join : List I → List I → JoinType → List I) (left : List I) :
    map_side_join algo_join left [] JoinType.Left = left
      ∧ map_side_join algo_join left [] JoinType.Outer = left
      ∧ map_side_join algo_join left [] JoinType.Full = left
      ∧ map_side_join algo_join left [] JoinType.Right = []
      ∧ map_side_join algo_join left [] JoinType.Inner = [] :=
  ⟨rfl, rfl, rfl, rfl, rfl⟩

/-- Every selection step leaves the caller's record object untouched:
all writes of `record_from_record` target the working copy. -/
theorem foldl_selStep_rec_in {V : Type} :
    ∀ (descs : List (Desc V)) (st : SelState V),
      (descs.foldl selStep st).rec_in = st.rec_in
  | [], _ => rfl
  | d :: descs, st => by
    rw [List.foldl_cons]
    rw [foldl_selStep_rec_in descs (selStep st d)]
    cases d <;> rfl

/-- C9: selecting over Record items never mutates the input record —
`record_from_record` copies the incoming mapping on entry and every
subsequent write targets the copy, so the source record's keys and
top-level values are unchanged after the call. -/
theorem record_from_record_preserves_input {V : Type}
    (rec_in : PyDict V) (descs : List (Desc V)) :
    (record_from_record rec_in descs).rec_in = rec_in :=
  foldl_selStep_rec_in descs ⟨rec_in, rec_in, []⟩

/-- C8: `map` on a query-backed stream fails fast for every query state
and every mapping function, with the unconditional
`NotImplementedError` (the spec taxonomy's UnsupportedOperationError)
raised before any query text is built or executed, and its message
directs the caller to materialize through `.to_record_stream()` first. -/
theorem sql_map_not_implemented {F : Type} (q : SqlQuery) (f : F) :
    SqlStream.map q f
        = Except.error (PyError.notImplementedError (MSG_NOT_IMPL "map"))
      ∧ MSG_NOT_IMPL "map"
        = "map() operation is not defined for SqlStream, try to use .to_record_stream().map() instead"
      ∧ (∃ pre post, MSG_NOT_IMPL "map" = pre ++ ".to_record_stream()" ++ post) :=
  ⟨rfl, by decide,
    ⟨"map() operation is not defined for SqlStream, try to use ", ".map() instead",
      by decide⟩⟩

/-- A query is strictly larger than its FROM source. -/
theorem sizeOf_fromS_lt (q : SqlQuery) : sizeOf q.fromS < sizeOf q := by
  cases q
  simp [SqlQuery.fromS]
  omega

/-- No query is its own sub-query source. -/
theorem fromS_ne_subquery_self (q : SqlQuery) : q.fromS ≠ SqlFrom.subquery q := by
  intro h
  have h1 := sizeOf_fromS_lt q
  rw [h] at h1
  simp at h1

/-- C5: calling `select()` on a query whose SELECT section is populated
returns a new query — with a generated name, the selected expressions as
its whole SELECT section, all other sections empty, and the original
query wrapped as its FROM source — and that result is distinct from the
original, which is left unchanged; calling `select()` on a query whose
SELECT section is empty appends the expressions into that query level's
own SELECT section. -/
theorem sql_select_nesting (q : SqlQuery) (exprs : List SqlExpr) :
    (q.selectS ≠ [] →
        SqlStream.select q exprs
            = SqlQuery.mk generatedName exprs (SqlFrom.subquery q) [] [] [] [] []
          ∧ (SqlStream.select q exprs).fromS = SqlFrom.subquery q
          ∧ SqlStream.select q exprs ≠ q)
    ∧ (q.selectS = [] →
        SqlStream.select q exprs = SqlQuery.setSelect q exprs) := by
  constructor
  · intro h
    have hne : q.selectS.isEmpty = false := by
      cases hq : q.selectS with
      | nil => exact absurd hq h
      | cons a l => rfl
    have heq : SqlStream.select q exprs
        = SqlQuery.mk generatedName exprs (SqlFrom.subquery q) [] [] [] [] [] := by
      simp [SqlStream.select, hne, SqlStream.new, SqlQuery.setSelect]
    refine ⟨heq, by rw [heq]; rfl, ?_⟩
    intro hcontra
    have h2 : (SqlStream.select q exprs).fromS = SqlFrom.subquery q := by
      rw [heq]; rfl
    rw [hcontra] at h2
    exact fromS_ne_subquery_self q h2
  · intro h
    have hemp : q.selectS.isEmpty = true := by rw [h]; rfl
    simp [SqlStream.select, hemp, h]

/-- Witness for C5 at a concrete query with populated SELECT: selecting
again wraps it as a sub-query and yields a different query value. -/
theorem sql_select_nesting_witness :
    (SqlQuery.mk "t" [SqlExpr.field "id"] (SqlFrom.table "t" "t") [] [] [] [] []).selectS ≠ []
      ∧ SqlStream.select
            (SqlQuery.mk "t" [SqlExpr.field "id"] (SqlFrom.table "t" "t") [] [] [] [] [])
            [SqlExpr.field "x"]
          ≠ SqlQuery.mk "t" [SqlExpr.field "id"] (SqlFrom.table "t" "t") [] [] [] [] [] :=
  ⟨by decide,
    ((sql_select_nesting
        (SqlQuery.mk "t" [SqlExpr.field "id"] (SqlFrom.table "t" "t") [] [] [] [] [])
        [SqlExpr.field "x"]).1 (by decide)).2.2⟩

/-- C1: on the Scenario-4 pipeline (a query over table `t`, then
`select(id, name)`, then `filter(id=1)`) the renderer emits only `";"`:
the loop of `get_query_lines` reassigns its accumulator on every section
instead of extending it, so all populated clause blocks before the final
(LIMIT) section are lost, although the WHERE section is populated and the
SELECT level is wrapped below the new query's FROM. -/
theorem sql_render_drops_sections :
    get_query scenarioQuery true = ";"
      ∧ get_query scenarioQuery true ≠ "SELECT id, name\nFROM t\nWHERE id = 1;"
      ∧ scenarioQuery.whereS = [SqlExpr.pair "id" (SqlVal.i 1)]
      ∧ scenarioQuery.fromS = SqlFrom.subquery scenarioSelect
      ∧ scenarioSelect.selectS = [SqlExpr.field "id", SqlExpr.field "name"] :=
  ⟨rfl, by decide, rfl, rfl, rfl⟩

/-- C3 counterexample: on the empty stream the final flush of
`_get_groups` is unconditional, so one group — the pair of Python `None`
and an empty accumulator — is emitted although the empty input has no
contiguous runs at all. -/
theorem sorted_group_by_pairs_empty_counterexample :
    sorted_group_by_pairs (fun n : Nat => n) [] = [(none, [])]
      ∧ sorted_group_by_pairs (fun n : Nat => n) [] ≠ [] := by
  refine ⟨rfl, by decide⟩

/-- Loop invariant of `_get_groups`: with a non-empty constant-key
accumulator, the groups it emits concatenate back to the accumulator
followed by the remaining input, every group is non-empty with its key,
adjacent groups carry different keys, and the first emitted group carries
the accumulator's key. -/
theorem getGroupsAux_invariant {α β : Type} [DecidableEq β] (key : α → β) :
    ∀ (rest : List α) (k0 : β) (acc : List α), acc ≠ [] → (∀ x ∈ acc, key x = k0) →
      (((getGroupsAux key (some k0) acc rest).map Prod.snd).join = acc ++ rest)
      ∧ (∀ p ∈ getGroupsAux key (some k0) acc rest, p.2 ≠ [] ∧ ∀ x ∈ p.2, p.1 = some (key x))
      ∧ ((getGroupsAux key (some k0) acc rest).map Prod.fst).Chain' (· ≠ ·)
      ∧ (∃ g gs, getGroupsAux key (some k0) acc rest = (some k0, g) :: gs) := by
  intro rest
  induction rest with
  | nil =>
    intro k0 acc hacc hkeys
    refine ⟨by simp [getGroupsAux], ?_, by simp [getGroupsAux], acc, [], by simp [getGroupsAux]⟩
    intro p hp
    simp [getGroupsAux] at hp
    subst hp
    exact ⟨hacc, fun x hx => by rw [hkeys x hx]⟩
  | cons r rest ih =>
    intro k0 acc hacc hkeys
    have hne : acc.isEmpty = false := by
      cases acc with
      | nil => exact absurd rfl hacc
      | cons a l => rfl
    by_cases hk : key r = k0
    · have hcond : ¬(some (key r) ≠ some k0 ∧ acc.isEmpty = false) := by
        simp [hk]
      have hstep : getGroupsAux key (some k0) acc (r :: rest)
          = getGroupsAux key (some k0) (acc ++ [r]) rest := by
        simp only [getGroupsAux, hk]
        simp
      have hkeys2 : ∀ x ∈ acc ++ [r], key x = k0 := by
        intro x hx
        rcases List.mem_append.mp hx with h1 | h1
        · exact hkeys x h1
        · simpa using List.mem_singleton.mp h1 ▸ hk
      obtain ⟨hjoin, hgroups, hchain, hshape⟩ :=
        ih k0 (acc ++ [r]) (by simp) hkeys2
      rw [hstep]
      refine ⟨by rw [hjoin]; simp, hgroups, hchain, hshape⟩
    · have hcond : (some (key r) ≠ some k0 ∧ acc.isEmpty = false) := by
        simp [hk, hne]
      have hstep : getGroupsAux key (some k0) acc (r :: rest)
          = (some k0, acc) :: getGroupsAux key (some (key r)) [r] rest := by
        simp only [getGroupsAux, if_pos hcond]
      obtain ⟨hjoin, hgroups, hchain, g, gs, hshape⟩ :=
        ih (key r) [r] (by simp) (by simp)
      rw [hstep]
      refine ⟨by simp [hjoin], ?_, ?_, acc, _, rfl⟩
      · intro p hp
        rcases List.mem_cons.mp hp with h1 | h1
        · subst h1
          exact ⟨hacc, fun x hx => by rw [hkeys x hx]⟩
        · exact hgroups p h1
      · rw [List.map_cons, hshape, List.map_cons, List.chain'_cons]
        refine ⟨by simp; exact fun hc => hk hc.symm, ?_⟩
        rw [hshape, List.map_cons] at hchain
        exact hchain

/-- C3 (amended): for every NON-EMPTY input stream — in particular every
input already ordered by the grouping key — `sorted_group_by` yields
exactly the contiguous runs of equal-key items, in encounter order: the
emitted groups concatenate back to the input (no item lost or duplicated,
every item in exactly one group), every group is a non-empty run
constant on its key, adjacent groups have different keys (runs are
maximal), and the final run is flushed at end of input; on the EMPTY
stream, however, the unconditional final flush emits one spurious empty
group `(None, [])` instead of no groups. -/
theorem sorted_group_by_pairs_runs {α β : Type} [DecidableEq β]
    (key : α → β) (items : List α) (h : items ≠ []) :
    (((sorted_group_by_pairs key items).map Prod.snd).join = items)
      ∧ (∀ p ∈ sorted_group_by_pairs key items, p.2 ≠ [] ∧ ∀ x ∈ p.2, p.1 = some (key x))
      ∧ ((sorted_group_by_pairs key items).map Prod.fst).Chain' (· ≠ ·) := by
  cases items with
  | nil => exact absurd rfl h
  | cons r rest =>
    have hstep : sorted_group_by_pairs key (r :: rest)
        = getGroupsAux key (some (key r)) [r] rest := by
      simp [sorted_group_by_pairs, getGroupsAux]
    obtain ⟨hjoin, hgroups, hchain, _⟩ :=
      getGroupsAux_invariant key rest (key r) [r] (by simp) (by simp)
    rw [hstep]
    exact ⟨hjoin, hgroups, hchain⟩

/-- Witness for the amended C3 theorem on the concrete sorted input
`[1, 1, 2]`. -/
theorem sorted_group_by_pairs_runs_witness :
    (([1, 1, 2] : List Nat) ≠ [])
      ∧ ((sorted_group_by_pairs (fun n : Nat => n) [1, 1, 2]).map Prod.snd).join
          = [1, 1, 2] :=
  ⟨by decide, (sorted_group_by_pairs_runs (fun n : Nat => n) [1, 1, 2] (by decide)).1⟩

/-- Every canonical tag string resolves through the enum constructor. -/
theorem ofValueString_isSome_of_mem {s : String} (h : s ∈ canonicValueStrings) :
    (ValueType.ofValueString? s).isSome := by
  fin_cases h <;> decide

/-- Every storage-dialect type name is found by the dialect-table scan. -/
theorem dialectScan_isSome_of_mem {s : String} (h : s ∈ dialectNameStrings) :
    (dialectScan (FieldTypeSpec.strSpec s)).isSome := by
  fin_cases h <;> decide

/-- C6: whenever `get_canonic_type` fails in strict mode it fails with
the `Unsupported field type` `ValueError` (the spec taxonomy's
UnsupportedTypeError) and the same spec under `ignore_missing` resolves
to the default tag `any`; and every resolvable spec — an
already-canonical tag, a storage-dialect type name, or a bare type — is
mapped to one canonical tag, the same in both modes. -/
theorem get_canonic_type_total (spec : FieldTypeSpec) :
    (∀ e, get_canonic_type spec false = Except.error e →
        get_canonic_type spec true = Except.ok ValueType.any
          ∧ e = PyError.valueError ("Unsupported field type: " ++ spec.pyStr))
    ∧ (Resolvable spec →
        ∃ t, get_canonic_type spec false = Except.ok t
          ∧ get_canonic_type spec true = Except.ok t) := by
  cases spec with
  | vt t =>
    constructor
    · intro e he
      simp [get_canonic_type] at he
    · intro _
      exact ⟨t, rfl, rfl⟩
  | strSpec s =>
    constructor
    · intro e he
      cases h1 : ValueType.ofValueString? s with
      | some t => simp [get_canonic_type, h1] at he
      | none =>
        by_cases h2 : s = "integer"
        · simp [get_canonic_type, h1, h2,
            show ValueType.ofValueString? "integer" = none from rfl] at he
        · cases h3 : dialectScan (FieldTypeSpec.strSpec s) with
          | some t => simp [get_canonic_type, h1, h2, h3] at he
          | none =>
            cases h4 : ValueType.ofValueString? (pyLower (lastDotPart (FieldTypeSpec.strSpec s).pyStr)) with
            | some t => simp [get_canonic_type, canonicLastResort, h1, h2, h3, h4] at he
            | none =>
              have h0 : get_canonic_type (FieldTypeSpec.strSpec s) false
                  = Except.error (PyError.valueError
                      ("Unsupported field type: " ++ (FieldTypeSpec.strSpec s).pyStr)) := by
                simp [get_canonic_type, canonicLastResort, h1, h2, h3, h4]
              rw [h0] at he
              injection he with h5
              refine ⟨?_, h5.symm⟩
              simp [get_canonic_type, canonicLastResort, h1, h2, h3, h4]
    · intro hres
      rcases hres with hmem | hmem
      · obtain ⟨t, h1⟩ := Option.isSome_iff_exists.mp (ofValueString_isSome_of_mem hmem)
        exact ⟨t, by simp [get_canonic_type, h1], by simp [get_canonic_type, h1]⟩
      · cases h1 : ValueType.ofValueString? s with
        | some t =>
          exact ⟨t, by simp [get_canonic_type, h1], by simp [get_canonic_type, h1]⟩
        | none =>
          by_cases h2 : s = "integer"
          · refine ⟨ValueType.int, ?_, ?_⟩ <;>
              simp [get_canonic_type, h1, h2,
                show ValueType.ofValueString? "integer" = none from rfl]
          · obtain ⟨t, h3⟩ := Option.isSome_iff_exists.mp (dialectScan_isSome_of_mem hmem)
            exact ⟨t, by simp [get_canonic_type, h1, h2, h3],
              by simp [get_canonic_type, h1, h2, h3]⟩
  | py t =>
    constructor
    · intro e he
      have h3 : (dialectScan (FieldTypeSpec.py t)).isSome := by cases t <;> decide
      obtain ⟨t2, h3'⟩ := Option.isSome_iff_exists.mp h3
      simp [get_canonic_type, h3'] at he
    · intro _
      have h3 : (dialectScan (FieldTypeSpec.py t)).isSome := by cases t <;> decide
      obtain ⟨t2, h3'⟩ := Option.isSome_iff_exists.mp h3
      exact ⟨t2, by simp [get_canonic_type, h3'], by simp [get_canonic_type, h3']⟩
  | noneSpec =>
    constructor
    · intro e he
      have h0 : get_canonic_type FieldTypeSpec.noneSpec false
          = Except.error (PyError.valueError
              ("Unsupported field type: " ++ FieldTypeSpec.noneSpec.pyStr)) := rfl
      rw [h0] at he
      injection he with h5
      exact ⟨rfl, h5.symm⟩
    · intro hres
      exact absurd hres (by simp [Resolvable])

/-- Witness for C6: the unresolvable spec `no_such_type` errors in
strict mode and falls back to `any` under `ignore_missing`, and the
dialect name `varchar(16)` resolves to one tag in both modes. -/
theorem get_canonic_type_total_witness :
    (get_canonic_type (FieldTypeSpec.strSpec "no_such_type") true = Except.ok ValueType.any
      ∧ PyError.valueError ("Unsupported field type: " ++ (FieldTypeSpec.strSpec "no_such_type").pyStr)
          = PyError.valueError ("Unsupported field type: " ++ (FieldTypeSpec.strSpec "no_such_type").pyStr))
    ∧ (∃ t, get_canonic_type (FieldTypeSpec.strSpec "varchar(16)") false = Except.ok t
        ∧ get_canonic_type (FieldTypeSpec.strSpec "varchar(16)") true = Except.ok t) :=
  ⟨(get_canonic_type_total (FieldTypeSpec.strSpec "no_such_type")).1
      (PyError.valueError ("Unsupported field type: " ++ (FieldTypeSpec.strSpec "no_such_type").pyStr))
      rfl,
    (get_canonic_type_total (FieldTypeSpec.strSpec "varchar(16)")).2
      (Or.inr (by decide))⟩

section SorterLemmas

variable {α β : Type} [LinearOrder β] (key : α → β)

theorem merge2_nil_left (r : List α) : merge2 key [] r = r := by
  simp [merge2]

theorem merge2_nil_right (l : List α) : merge2 key l [] = l := by
  cases l <;> simp [merge2]

theorem merge2_cons_cons (x y : α) (xs ys : List α) :
    merge2 key (x :: xs) (y :: ys)
      = if key y < key x then y :: merge2 key (x :: xs) ys
        else x :: merge2 key xs (y :: ys) := by
  simp [merge2]

theorem orderedInsertKey_cons (a b : α) (l : List α) :
    orderedInsertKey key a (b :: l)
      = if key a ≤ key b then a :: b :: l else b :: orderedInsertKey key a l :=
  rfl

/-- Inserting an element into the left list before merging is the same as
inserting it into the merge: the stable merge and the stable insertion
agree on where an element lands. -/
theorem merge2_orderedInsert (x : α) :
    ∀ u v : List α,
      merge2 key (orderedInsertKey key x u) v
        = orderedInsertKey key x (merge2 key u v)
  | [], [] => by simp [orderedInsertKey, merge2_nil_right]
  | [], y :: ys => by
    show merge2 key [x] (y :: ys) = orderedInsertKey key x (merge2 key [] (y :: ys))
    rw [merge2_nil_left, merge2_cons_cons, orderedInsertKey_cons]
    by_cases hyx : key y < key x
    · have ih := merge2_orderedInsert x [] ys
      rw [show orderedInsertKey key x ([] : List α) = [x] from rfl, merge2_nil_left] at ih
      rw [if_pos hyx, if_neg (not_le.mpr hyx), ih]
    · rw [if_neg hyx, if_pos (not_lt.mp hyx), merge2_nil_left]
  | c :: u', [] => by
    rw [merge2_nil_right, merge2_nil_right]
  | c :: u', y :: ys => by
    by_cases hxc : key x ≤ key c
    · have hins : orderedInsertKey key x (c :: u') = x :: c :: u' := by
        rw [orderedInsertKey_cons, if_pos hxc]
      by_cases hyx : key y < key x
      · have hyc : key y < key c := lt_of_lt_of_le hyx hxc
        have ih := merge2_orderedInsert x (c :: u') ys
        rw [hins, merge2_cons_cons, if_pos hyx, merge2_cons_cons, if_pos hyc,
          orderedInsertKey_cons, if_neg (not_le.mpr hyx)]
        rw [hins] at ih
        rw [ih]
      · have hxy : key x ≤ key y := not_lt.mp hyx
        rw [hins, merge2_cons_cons, if_neg hyx]
        by_cases hyc : key y < key c
        · rw [merge2_cons_cons, if_pos hyc, orderedInsertKey_cons, if_pos hxy]
        · rw [merge2_cons_cons, if_neg hyc, orderedInsertKey_cons, if_pos hxc]
    · have hcx : key c < key x := not_le.mp hxc
      have hins : orderedInsertKey key x (c :: u') = c :: orderedInsertKey key x u' := by
        rw [orderedInsertKey_cons, if_neg hxc]
      by_cases hyc : key y < key c
      · have hyx : key y < key x := lt_trans hyc hcx
        have ih := merge2_orderedInsert x (c :: u') ys
        rw [hins, merge2_cons_cons, if_pos hyc, merge2_cons_cons, if_pos hyc,
          orderedInsertKey_cons, if_neg (not_le.mpr hyx), ← hins, ih]
      · have ih := merge2_orderedInsert x u' (y :: ys)
        rw [hins, merge2_cons_cons, if_neg hyc, merge2_cons_cons, if_neg hyc,
          orderedInsertKey_cons, if_neg hxc, ih]
  termination_by u v => u.length + v.length

/-- Stable binary merge of two stably sorted halves is the stable sort of
their concatenation. -/
theorem merge2_memory_sort (a b : List α) :
    merge2 key (memory_sort key a) (memory_sort key b)
      = memory_sort key (a ++ b) := by
  induction a with
  | nil => rw [memory_sort, merge2_nil_left, List.nil_append]
  | cons x a' ih =>
    show merge2 key (orderedInsertKey key x (memory_sort key a')) (memory_sort key b)
      = memory_sort key (x :: (a' ++ b))
    rw [merge2_orderedInsert, ih, memory_sort]

theorem sumLen_cons (l : List α) (ls : List (List α)) :
    sumLen (l :: ls) = l.length + sumLen ls := by
  simp [sumLen]

theorem pickMinHead_none_of_sumLen_zero :
    ∀ ls : List (List α), sumLen ls = 0 → pickMinHead key ls = none
  | [], _ => rfl
  | [] :: ls, h => by
    have h' : sumLen ls = 0 := by simpa [sumLen] using h
    show pickMinHead key ls = none
    exact pickMinHead_none_of_sumLen_zero ls h'
  | (a :: rest) :: ls, h => by
    exfalso
    simp [sumLen] at h

theorem pickMinHead_sumLen :
    ∀ {ls : List (List α)} {a : α} {ls2 : List (List α)},
      pickMinHead key ls = some (a, ls2) → sumLen ls = sumLen ls2 + 1
  | [], _, _, h => by simp [pickMinHead] at h
  | [] :: ls, a, ls2, h => by
    have h' : pickMinHead key ls = some (a, ls2) := h
    rw [sumLen_cons]
    simpa using pickMinHead_sumLen h'
  | (b :: rest) :: ls, a, ls2, h => by
    cases hp : pickMinHead key ls with
    | none =>
      simp only [pickMinHead, hp, Option.some.injEq, Prod.mk.injEq] at h
      obtain ⟨h1, h2⟩ := h
      subst h2
      rw [sumLen_cons, sumLen_cons]
      simp
      omega
    | some p =>
      obtain ⟨c, ls3⟩ := p
      have hs := pickMinHead_sumLen hp
      simp only [pickMinHead, hp] at h
      by_cases hc : key b ≤ key c
      · rw [if_pos hc] at h
        simp only [Option.some.injEq, Prod.mk.injEq] at h
        obtain ⟨h1, h2⟩ := h
        subst h2
        rw [sumLen_cons, sumLen_cons]
        simp
        omega
      · rw [if_neg hc] at h
        simp only [Option.some.injEq, Prod.mk.injEq] at h
        obtain ⟨h1, h2⟩ := h
        subst h2
        rw [sumLen_cons, sumLen_cons]
        omega

theorem kmergeFuel_congr :
    ∀ (n m : Nat) (ls : List (List α)), sumLen ls ≤ n → sumLen ls ≤ m →
      kmergeFuel key n ls = kmergeFuel key m ls
  | 0, m, ls, hn, _ => by
    have hp := pickMinHead_none_of_sumLen_zero key ls (Nat.le_zero.mp hn)
    cases m with
    | zero => rfl
    | succ m => simp [kmergeFuel, hp]
  | n + 1, 0, ls, _, hm => by
    have hp := pickMinHead_none_of_sumLen_zero key ls (Nat.le_zero.mp hm)
    simp [kmergeFuel, hp]
  | n + 1, m + 1, ls, hn, hm => by
    simp only [kmergeFuel]
    cases hp : pickMinHead key ls with
    | none => rfl
    | some p =>
      obtain ⟨a, ls2⟩ := p
      have hs := pickMinHead_sumLen key hp
      show a :: kmergeFuel key n ls2 = a :: kmergeFuel key m ls2
      rw [kmergeFuel_congr n m ls2 (by omega) (by omega)]

theorem kmerge_of_pick_none {ls : List (List α)}
    (h : pickMinHead key ls = none) : kmerge key ls = [] := by
  rw [kmerge]
  cases sumLen ls with
  | zero => rfl
  | succ n => simp [kmergeFuel, h]

theorem kmerge_unfold {ls ls2 : List (List α)} {a : α}
    (h : pickMinHead key ls = some (a, ls2)) :
    kmerge key ls = a :: kmerge key ls2 := by
  have hs := pickMinHead_sumLen key h
  rw [kmerge, kmerge, hs]
  simp [kmergeFuel, h]

theorem kmerge_nil_cursor (ls : List (List α)) :
    kmerge key ([] :: ls) = kmerge key ls := by
  cases hp : pickMinHead key ls with
  | none =>
    rw [kmerge_of_pick_none key (show pickMinHead key ([] :: ls) = none from hp),
      kmerge_of_pick_none key hp]
  | some p =>
    obtain ⟨a, ls2⟩ := p
    rw [kmerge_unfold key (show pickMinHead key ([] :: ls) = some (a, ls2) from hp),
      kmerge_unfold key hp]

/-- The k-way merge peels its cursors one at a time: merging the first
cursor binarily into the k-way merge of the rest gives the same output,
tie-breaking and all. -/
theorem kmerge_cons_aux :
    ∀ (n : Nat) (l : List α) (ls : List (List α)), sumLen (l :: ls) ≤ n →
      kmerge key (l :: ls) = merge2 key l (kmerge key ls)
  | _, [], ls, _ => by rw [kmerge_nil_cursor, merge2_nil_left]
  | 0, a :: rest, ls, hn => by
    exfalso
    rw [sumLen_cons] at hn
    simp at hn
  | n + 1, a :: rest, ls, hn => by
    have hlen : sumLen (rest :: ls) ≤ n := by
      rw [sumLen_cons] at hn ⊢
      simp at hn
      omega
    cases hp : pickMinHead key ls with
    | none =>
      have hls : kmerge key ls = [] := kmerge_of_pick_none key hp
      have hpick : pickMinHead key ((a :: rest) :: ls) = some (a, rest :: ls) := by
        simp [pickMinHead, hp]
      rw [kmerge_unfold key hpick, kmerge_cons_aux n rest ls hlen, hls,
        merge2_nil_right, merge2_nil_right]
    | some p =>
      obtain ⟨b, ls2⟩ := p
      have hb : kmerge key ls = b :: kmerge key ls2 := kmerge_unfold key hp
      have hs := pickMinHead_sumLen key hp
      by_cases hab : key a ≤ key b
      · have hpick : pickMinHead key ((a :: rest) :: ls) = some (a, rest :: ls) := by
          simp [pickMinHead, hp, hab]
        rw [kmerge_unfold key hpick, kmerge_cons_aux n rest ls hlen, hb,
          merge2_cons_cons, if_neg (not_lt.mpr hab)]
      · have hpick : pickMinHead key ((a :: rest) :: ls)
            = some (b, (a :: rest) :: ls2) := by
          simp [pickMinHead, hp, hab]
        have hlen2 : sumLen ((a :: rest) :: ls2) ≤ n := by
          rw [sumLen_cons] at hn ⊢
          omega
        rw [kmerge_unfold key hpick, kmerge_cons_aux n (a :: rest) ls2 hlen2, hb,
          merge2_cons_cons, if_pos (not_le.mp hab)]

theorem kmerge_cons (l : List α) (ls : List (List α)) :
    kmerge key (l :: ls) = merge2 key l (kmerge key ls) :=
  kmerge_cons_aux key (sumLen (l :: ls)) l ls (le_refl _)

/-- K-way merging the stably sorted chunks is the stable sort of the
concatenated chunks. -/
theorem kmerge_map_memory_sort :
    ∀ cs : List (List α),
      kmerge key (cs.map (memory_sort key)) = memory_sort key cs.join
  | [] => rfl
  | c :: cs => by
    rw [List.map_cons, kmerge_cons, kmerge_map_memory_sort cs,
      merge2_memory_sort]
    rfl

theorem chunksFuel_join (step : Nat) (hstep : 1 ≤ step) :
    ∀ (fuel : Nat) (xs : List α), xs.length ≤ fuel →
      (chunksFuel step fuel xs).join = xs
  | fuel, [], _ => by cases fuel <;> simp [chunksFuel]
  | 0, x :: xs, h => by simp at h
  | fuel + 1, x :: xs, h => by
    have hdrop : (List.drop step (x :: xs)).length ≤ fuel := by
      rw [List.length_drop]
      simp at h ⊢
      omega
    show List.take step (x :: xs) ++ (chunksFuel step fuel (List.drop step (x :: xs))).join
      = x :: xs
    rw [chunksFuel_join step hstep fuel _ hdrop, List.take_append_drop]

theorem chunks_join (step : Nat) (hstep : 1 ≤ step) (xs : List α) :
    (chunks step xs).join = xs :=
  chunksFuel_join step hstep xs.length xs (le_refl _)

theorem orderedInsertKey_perm (x : α) :
    ∀ l : List α, List.Perm (orderedInsertKey key x l) (x :: l)
  | [] => List.Perm.refl _
  | b :: l => by
    rw [orderedInsertKey_cons]
    by_cases hxb : key x ≤ key b
    · rw [if_pos hxb]
    · rw [if_neg hxb]
      exact ((orderedInsertKey_perm x l).cons b).trans (List.Perm.swap x b l)

theorem memory_sort_perm : ∀ xs : List α, List.Perm (memory_sort key xs) xs
  | [] => List.Perm.refl _
  | a :: xs => by
    rw [memory_sort]
    exact (orderedInsertKey_perm key a (memory_sort key xs)).trans
      ((memory_sort_perm xs).cons a)

theorem mem_orderedInsertKey {y x : α} {l : List α}
    (h : y ∈ orderedInsertKey key x l) : y = x ∨ y ∈ l := by
  have := (orderedInsertKey_perm key x l).mem_iff.mp h
  simpa using this

theorem orderedInsertKey_sorted (x : α) :
    ∀ l : List α, List.Sorted (fun a b => key a ≤ key b) l →
      List.Sorted (fun a b => key a ≤ key b) (orderedInsertKey key x l)
  | [], _ => by simp [orderedInsertKey]
  | b :: l, hl => by
    rw [List.sorted_cons] at hl
    rw [orderedInsertKey_cons]
    by_cases hxb : key x ≤ key b
    · rw [if_pos hxb, List.sorted_cons]
      refine ⟨?_, List.sorted_cons.mpr hl⟩
      intro y hy
      rcases List.mem_cons.mp hy with h1 | h1
      · exact h1 ▸ hxb
      · exact le_trans hxb (hl.1 y h1)
    · rw [if_neg hxb, List.sorted_cons]
      refine ⟨?_, orderedInsertKey_sorted x l hl.2⟩
      intro y hy
      rcases mem_orderedInsertKey key hy with h1 | h1
      · exact h1 ▸ le_of_lt (not_le.mp hxb)
      · exact hl.1 y h1

theorem memory_sort_sorted :
    ∀ xs : List α, List.Sorted (fun a b => key a ≤ key b) (memory_sort key xs)
  | [] => List.sorted_nil
  | a :: xs => orderedInsertKey_sorted key a _ (memory_sort_sorted xs)

theorem filter_orderedInsertKey_pos {x : α} {b : β} (hb : key x = b) :
    ∀ l : List α,
      (orderedInsertKey key x l).filter (fun y => decide (key y = b))
        = x :: l.filter (fun y => decide (key y = b))
  | [] => by simp [orderedInsertKey, hb]
  | c :: l => by
    rw [orderedInsertKey_cons]
    by_cases hxc : key x ≤ key c
    · rw [if_pos hxc]
      simp [hb]
    · have hcb : ¬ key c = b := by
        intro hc
        rw [← hb] at hc
        exact (ne_of_lt (not_le.mp hxc)) hc
      rw [if_neg hxc]
      simp [hcb]
      exact filter_orderedInsertKey_pos hb l

theorem filter_orderedInsertKey_neg {x : α} {b : β} (hb : ¬ key x = b) :
    ∀ l : List α,
      (orderedInsertKey key x l).filter (fun y => decide (key y = b))
        = l.filter (fun y => decide (key y = b))
  | [] => by simp [orderedInsertKey, hb]
  | c :: l => by
    rw [orderedInsertKey_cons]
    by_cases hxc : key x ≤ key c
    · rw [if_pos hxc]
      simp [hb]
    · rw [if_neg hxc]
      by_cases hc : key c = b
      · simp [hc]
        exact filter_orderedInsertKey_neg hb l
      · simp [hc]
        exact filter_orderedInsertKey_neg hb l

/-- Stability of the in-memory sort: the subsequence of elements mapping
to any one key value is exactly the input's subsequence for that value. -/
theorem memory_sort_filter (b : β) :
    ∀ xs : List α,
      (memory_sort key xs).filter (fun y => decide (key y = b))
        = xs.filter (fun y => decide (key y = b))
  | [] => rfl
  | a :: xs => by
    rw [memory_sort]
    by_cases ha : key a = b
    · rw [filter_orderedInsertKey_pos key ha, memory_sort_filter b xs]
      simp [ha]
    · rw [filter_orderedInsertKey_neg key ha, memory_sort_filter b xs]
      simp [ha]

end SorterLemmas

/-- C2 (spec-modelled Sorter): for every input, key function and chunk
size `step ≥ 1`, `disk_sort(key, step)` produces exactly the
`memory_sort(key)` output — so the once-per-call choice in `sort()`
between the in-memory and the disk path never changes the resulting
order — and that output is the input stably sorted by the key: a
permutation of the input, sorted by key, in which the items of every
single key value keep their encounter order. -/
theorem disk_sort_eq_memory_sort {α β : Type} [LinearOrder β]
    (key : α → β) (step : Nat) (xs : List α) (hstep : 1 ≤ step) :
    disk_sort key step xs = memory_sort key xs
      ∧ (∀ in_memory, stream_sort key in_memory step xs = memory_sort key xs)
      ∧ List.Perm (memory_sort key xs) xs
      ∧ List.Sorted (· ≤ ·) ((memory_sort key xs).map key)
      ∧ (∀ b, (memory_sort key xs).filter (fun y => decide (key y = b))
          = xs.filter (fun y => decide (key y = b))) := by
  have hdisk : disk_sort key step xs = memory_sort key xs := by
    rw [disk_sort, kmerge_map_memory_sort, chunks_join step hstep]
  refine ⟨hdisk, ?_, memory_sort_perm key xs, ?_,
    fun b => memory_sort_filter key b xs⟩
  · intro im
    cases im with
    | true => rfl
    | false => simpa [stream_sort] using hdisk
  · exact List.pairwise_map.mpr (memory_sort_sorted key xs)

/-- Witness for C2 on spec Scenario 1: `disk_sort([5,3,4,1,2], step=2)`
equals the in-memory sort, which is `[1,2,3,4,5]`. -/
theorem disk_sort_eq_memory_sort_witness :
    (1 ≤ 2)
      ∧ disk_sort (fun n : Nat => n) 2 [5, 3, 4, 1, 2]
          = memory_sort (fun n : Nat => n) [5, 3, 4, 1, 2]
      ∧ memory_sort (fun n : Nat => n) [5, 3, 4, 1, 2] = [1, 2, 3, 4, 5] :=
  ⟨by decide,
    (disk_sort_eq_memory_sort (fun n : Nat => n) 2 [5, 3, 4, 1, 2] (by decide)).1,
    by decide⟩

end Snakee
